/-
  Verification of the ingest pipeline's core logic.

  Shallow embedding of:
  - the windowed multi-page reconciler `parseQuestionsWithGemini`
    (src/server/index.js, array-input branch): window generation,
    per-window failure isolation, and prefix-fingerprint deduplication;
  - the region cropper `cropImageFromBase64` (src/services/imageUtils.ts):
    box validation, normalized-to-pixel conversion, 1% safety padding,
    clipping to raster bounds;
  - the interactive crop selector's `getMousePos` and `handleCropConfirm`
    (ImageCropModal): display-to-native coordinate rescale and the
    minimum-selection-size rejection;
  - the export uploader `uploadImagesToFirebaseAndCreateJSON`
    (imageExportService): total-image count and the progress-callback trace;
  - `handleOptionChange` (src/components/QuestionCard.tsx): the
    single-correct-option invariant for MCQ questions.

  JavaScript numbers are modelled as rationals (ℚ); machine-float rounding
  is outside the scope of this development.  Asynchronous effects are
  modelled by explicit state passing; a JS promise that always `resolve`s
  (never rejects) is modelled as a total function.
-/
import Mathlib

/-! ## Data model (src/unnamed/part_002, types.ts) -/

/-- Question type: `"mcq" | "numerical" | "msq"` from types.ts. -/
inductive QuestionType
  | mcq
  | numerical
  | msq
deriving DecidableEq, Repr

/-- Answer option (interface `Option` in types.ts; renamed to avoid the
Lean `Option` type).  Fields not used by any verified operation
(`hasDiagram`, `boundingBox`) are omitted; they are carried opaquely by
the code paths modelled here. -/
structure QOption where
  text : String := ""
  isCorrect : Bool := false
  image : Option String := none
deriving DecidableEq, Repr

/-- Question record (interface `Question` in types.ts).  Classification
metadata fields (subject, board, chapter, ...) are omitted: no verified
operation reads or writes them; they are carried opaquely. -/
structure Question where
  text : String := ""
  type : QuestionType := QuestionType.mcq
  options : List QOption := []
  image : Option String := none
  isSelected : Bool := true
  isValid : Bool := true
  source : String := ""
deriving DecidableEq, Repr

/-! ## Windowed reconciler (src/server/index.js, `parseQuestionsWithGemini`,
array-input branch)

The JS loop is
```
for (let i = 0; i < input.length; i += 1) {
  const chunk = input.slice(i, i + WINDOW_SIZE);   // WINDOW_SIZE = 2
  if (chunk.length === 0) break;
  try {
    const windowQuestions = await processBatch(chunk, sourceName, i + 1);
    for (const q of windowQuestions) {
      if (!allQuestions.find(prev => prev.text.substring(0, 50) === q.text.substring(0, 50))) {
        allQuestions.push(q);
      }
    }
  } catch (error) { log(...); }
  if (i + WINDOW_SIZE >= input.length) break;
}
```
Pages are abstracted to their 1-based indices (the oracle `processBatch`
is external; only which pages each call receives matters here). -/

/-- The 1-based page indices of `input.slice(i, i + 2)` for an input of
`N` pages: pages `i+1 .. min (i+2) N`. -/
def windowAt (N i : Nat) : List Nat :=
  List.range' (i + 1) (min 2 (N - i))

/-- The sequence of windows produced by the loop from counter value `i`:
emit `windowAt N i`, stop when `i + 2 >= N` (the trailing `break`),
otherwise continue with `i + 1`. -/
def windowsAux (N i : Nat) : List (List Nat) :=
  if h : i < N then
    windowAt N i :: (if N ≤ i + 2 then [] else windowsAux N (i + 1))
  else []
termination_by N - i
decreasing_by
  simp_wf
  omega

/-- All windows submitted to the oracle for an `N`-page document. -/
def geminiWindows (N : Nat) : List (List Nat) :=
  windowsAux N 0

/-- `substring(0, 50)` of the question stem: the dedup fingerprint. -/
def fingerprint (q : Question) : String :=
  q.text.take 50

/-- One iteration of the inner dedup loop: push `q` unless a previously
accepted question shares its 50-character stem prefix
(`allQuestions.find(prev => prev.text.substring(0,50) === q.text.substring(0,50))`). -/
def dedupInsert (allQuestions : List Question) (q : Question) : List Question :=
  if allQuestions.any (fun prev => fingerprint prev == fingerprint q) then
    allQuestions
  else
    allQuestions ++ [q]

/-- Dedup-fold a stream of candidate questions (document order). -/
def dedupAll (qs : List Question) : List Question :=
  qs.foldl dedupInsert []

/-- The `try/catch` body of one loop iteration, applied to the window's
oracle result: a failed window (`catch`) leaves the accumulator
unchanged (only a log is emitted); a successful one runs the inner
dedup loop over its candidate questions. -/
def windowStep (acc : List Question) (r : Except String (List Question)) :
    List Question :=
  match r with
  | Except.error _ => acc
  | Except.ok windowQuestions => windowQuestions.foldl dedupInsert acc

/-- Fold the per-window oracle results through the loop body, in window
order, starting from the empty `allQuestions`. -/
def collectWindows (results : List (Except String (List Question))) : List Question :=
  results.foldl windowStep []

/-- The whole array-input loop of `parseQuestionsWithGemini`, with the
oracle (`processBatch`) abstracted as a function from the window's page
indices to a result.  Mirrors `windowsAux`' recursion structure. -/
def parseLoop (oracle : List Nat → Except String (List Question))
    (N i : Nat) (allQuestions : List Question) : List Question :=
  if h : i < N then
    if N ≤ i + 2 then windowStep allQuestions (oracle (windowAt N i))
    else parseLoop oracle N (i + 1) (windowStep allQuestions (oracle (windowAt N i)))
  else allQuestions
termination_by N - i
decreasing_by
  simp_wf
  omega

/-- `parseQuestionsWithGemini` on an array input of `N` pages. -/
def parseQuestionsWithGemini (oracle : List Nat → Except String (List Question))
    (N : Nat) : List Question :=
  parseLoop oracle N 0 []

/-! ## Region cropper (src/services/imageUtils.ts, `cropImageFromBase64`)

`cropImageFromBase64(base64Image, box)` returns a promise that always
resolves (every code path calls `resolve`; `onload` wraps its body in
`try/catch` resolving `null`, and `onerror` resolves `null`), so it is
modelled as a total function.  The browser image decode is abstracted as
an `Option DecodedImage` argument: `none` models the `onerror` path
(undecodable raster), `some img` the `onload` path with the decoded
raster's natural dimensions.  The box argument `number[] | null` is
modelled as `Option (List ℚ)`: `none` models `null`/`undefined`/non-array
(the `!box || !Array.isArray(box)` guard). -/

/-- Natural dimensions of a successfully decoded raster. -/
structure DecodedImage where
  naturalWidth : ℚ
  naturalHeight : ℚ
deriving DecidableEq, Repr

/-- Outcome of a crop: `nullResult` models a resolution with `null`;
`image W H` models a resolution with a data URL for a canvas of the
given dimensions.  Canvas dimensions are whole pixels (ℤ): the DOM
coerces the float assigned to `canvas.width`/`canvas.height` to an
integer.  There is no error constructor: the promise never rejects. -/
inductive CropResult
  | nullResult
  | image (width height : ℤ)
deriving DecidableEq, Repr

/-- Shallow embedding of `cropImageFromBase64`.  Matches the source
line by line: shape validation before any decode, `null` on decode
failure, `null` on `ymin >= ymax || xmin >= xmax`, otherwise the
0-1000 → pixel conversion, 1% padding and clipping to raster bounds
(`Math.max`/`Math.min`).  The assignments `canvas.width = finalW` and
`canvas.height = finalH` coerce the float to a whole number of pixels;
this is modelled as the floor, which coincides with the DOM's
truncation for the nonnegative extents produced by boxes on the 0-1000
scale (for coordinates outside that range the DOM's `ToUint32`
wrapping of a negative extent is not modelled).  The
`canvas.getContext('2d')` null check (an environment without 2D canvas
support resolves `null`) is not modelled. -/
def cropImageFromBase64 (decoded : Option DecodedImage) (box : Option (List ℚ)) :
    CropResult :=
  match box with
  | none => CropResult.nullResult
  | some b =>
    match b with
    | [ymin, xmin, ymax, xmax] =>
      match decoded with
      | none => CropResult.nullResult
      | some img =>
        if ymin ≥ ymax ∨ xmin ≥ xmax then CropResult.nullResult
        else
          let h := img.naturalHeight
          let w := img.naturalWidth
          let y1 := ymin / 1000 * h
          let x1 := xmin / 1000 * w
          let y2 := ymax / 1000 * h
          let x2 := xmax / 1000 * w
          let cropWidth := x2 - x1
          let cropHeight := y2 - y1
          let padX := w * (1 / 100)
          let padY := h * (1 / 100)
          let finalX := max 0 (x1 - padX)
          let finalY := max 0 (y1 - padY)
          let finalW := min (w - finalX) (cropWidth + padX * 2)
          let finalH := min (h - finalY) (cropHeight + padY * 2)
          CropResult.image ⌊finalW⌋ ⌊finalH⌋
    | _ => CropResult.nullResult

/-! ## Interactive crop selector (ImageCropModal, src/unnamed/part_000) -/

/-- Selection state of the modal: the two stored corners
(`startPos`, `endPos`) and the drag flag (`isSelecting`). -/
structure SelectorState where
  startPos : ℚ × ℚ
  endPos : ℚ × ℚ
  isSelecting : Bool
deriving DecidableEq, Repr

/-- Outcome of `handleCropConfirm`: `warned` models the
`alert('Selection too small...')` early return (no crop performed);
`cropped x y w h` models drawing the rectangle onto the crop canvas and
handing the encoded image to `onCropComplete`. -/
inductive ConfirmOutcome
  | warned
  | cropped (x y width height : ℚ)
deriving DecidableEq, Repr

/-- Geometry of the displayed canvas: native backing size
(`canvas.width/height`) and the bounding client rect of the displayed
element (`getBoundingClientRect`). -/
structure CanvasGeom where
  width : ℚ
  height : ℚ
  rectLeft : ℚ
  rectTop : ℚ
  rectWidth : ℚ
  rectHeight : ℚ
deriving DecidableEq, Repr

/-- `getMousePos`: rescale pointer client coordinates into native raster
pixels, per axis (`scaleX = canvas.width / rect.width`, etc.). -/
def getMousePos (c : CanvasGeom) (clientX clientY : ℚ) : ℚ × ℚ :=
  let scaleX := c.width / c.rectWidth
  let scaleY := c.height / c.rectHeight
  ((clientX - c.rectLeft) * scaleX, (clientY - c.rectTop) * scaleY)

/-- `handleCropConfirm`: normalize the two corners into a rectangle and
either reject (width or height below 10) leaving the state untouched, or
crop exactly that rectangle.  The component sets no state in this
handler, so the state is returned unchanged on both paths.  The
`canvasRef.current` null guard (component not mounted, in which case no
selection can be confirmed) is not modelled. -/
def handleCropConfirm (s : SelectorState) : SelectorState × ConfirmOutcome :=
  let x := min s.startPos.1 s.endPos.1
  let y := min s.startPos.2 s.endPos.2
  let width := |s.endPos.1 - s.startPos.1|
  let height := |s.endPos.2 - s.startPos.2|
  if width < 10 ∨ height < 10 then
    (s, ConfirmOutcome.warned)
  else
    (s, ConfirmOutcome.cropped x y width height)

/-! ## Export uploader (src/unnamed/part_003,
`uploadImagesToFirebaseAndCreateJSON`)

The function first computes `totalImages` by a `reduce` over the
questions, then uploads every data-URL image; after each upload it runs
`uploadCount++; if (onProgress) onProgress(uploadCount, totalImages);`
synchronously (no `await` between the increment and the callback), so
each upload completion is one atomic counter event regardless of how the
per-question `Promise.all` tasks interleave.  A run is modelled as a
fold of these atomic events over an arbitrary completion schedule. -/

/-- Whether an image field holds a data URL
(`img && img.startsWith('data:')`).  The prefix test is expressed on the
string's character list (`List.isPrefixOf`), which is extensionally the
same predicate as `String.startsWith`; Lean's byte-level `startsWith`
does not reduce in the kernel. -/
def isDataUrl (s : Option String) : Bool :=
  match s with
  | some str => List.isPrefixOf "data:".data str.data
  | none => false

/-- Per-question image count: `1` for a data-URL main image plus the
number of options with data-URL images (the body of the `reduce`). -/
def countQuestionImages (q : Question) : Nat :=
  (if isDataUrl q.image then 1 else 0) +
    (q.options.filter (fun opt => isDataUrl opt.image)).length

/-- `totalImages`: the `reduce` over all questions. -/
def totalImages (questions : List Question) : Nat :=
  questions.foldl (fun count q => count + countQuestionImages q) 0

/-- Observable progress state: the shared `uploadCount` and the sequence
of `(current, total)` argument pairs passed to `onProgress` so far. -/
structure UploadProgress where
  uploadCount : Nat
  calls : List (Nat × Nat)
deriving DecidableEq, Repr

/-- One atomic upload-completion event:
`uploadCount++; onProgress(uploadCount, total)`. -/
def uploadOneImage (total : Nat) (s : UploadProgress) : UploadProgress :=
  { uploadCount := s.uploadCount + 1
    calls := s.calls ++ [(s.uploadCount + 1, total)] }

/-- Run the upload events for every element of a completion schedule
(one element per image, in an arbitrary interleaving order chosen by the
scheduler); the counter logic is independent of which image completes. -/
def runUploadSchedule {α : Type} (total : Nat) (s : UploadProgress) :
    List α → UploadProgress
  | [] => s
  | _ :: rest => runUploadSchedule total (uploadOneImage total s) rest

/-! ## MCQ option handler (src/components/QuestionCard.tsx,
`handleOptionChange`), specialised to `field = 'isCorrect'`:
```
const newOptions = [...question.options];
newOptions[optIndex] = { ...newOptions[optIndex], isCorrect: value };
if (value === true && question.type === 'mcq') {
  newOptions.forEach((o, i) => { if (i !== optIndex) o.isCorrect = false; });
}
onUpdate(index, { ...question, options: newOptions });
```
The result is the question value passed to `onUpdate`. -/

/-- `handleOptionChange(optIndex, 'isCorrect', value)`. -/
def handleOptionChangeIsCorrect (question : Question) (optIndex : Nat)
    (value : Bool) : Question :=
  let newOptions := question.options.mapIdx
    (fun j o => if j = optIndex then { o with isCorrect := value } else o)
  let cleared :=
    if value = true ∧ question.type = QuestionType.mcq then
      newOptions.mapIdx
        (fun i o => if i ≠ optIndex then { o with isCorrect := false } else o)
    else newOptions
  { question with options := cleared }

/-- Default option used as the out-of-range fallback in `List.getD`
statements below (its `isCorrect` is `false`). -/
def dummyOption : QOption :=
  { text := "", isCorrect := false, image := none }

/-! ## Theorems -/

/-- C3: for every malformed box (`ymin >= ymax` or `xmin >= xmax`) and
whenever the source raster fails to decode, `cropImageFromBase64`
resolves `null` and never rejects (the embedding is a total function
into `CropResult`, which has no error constructor). -/
theorem cropImageFromBase64_null_on_malformed_or_decode_failure :
    (∀ box : Option (List ℚ),
      cropImageFromBase64 none box = CropResult.nullResult) ∧
    (∀ (decoded : Option DecodedImage) (ymin xmin ymax xmax : ℚ),
      ymin ≥ ymax ∨ xmin ≥ xmax →
        cropImageFromBase64 decoded (some [ymin, xmin, ymax, xmax]) =
          CropResult.nullResult) := by
  constructor
  · intro box
    match box with
    | none => rfl
    | some [] => rfl
    | some [a] => rfl
    | some [a, b] => rfl
    | some [a, b, c] => rfl
    | some [a, b, c, d] => rfl
    | some (a :: b :: c :: d :: e :: t) => rfl
  · intro decoded ymin xmin ymax xmax h
    match decoded with
    | none => rfl
    | some img =>
      simp only [cropImageFromBase64]
      rw [if_pos h]

/-- Witness for C3: a decode failure on a well-formed box, and a
degenerate box (`ymin = ymax`) on a decoded 100×200 raster, both
resolve `null`. -/
theorem cropImageFromBase64_null_witness :
    cropImageFromBase64 none (some [0, 0, 10, 10]) = CropResult.nullResult ∧
    cropImageFromBase64 (some ⟨100, 200⟩) (some [5, 3, 5, 7]) =
      CropResult.nullResult :=
  ⟨cropImageFromBase64_null_on_malformed_or_decode_failure.1 (some [0, 0, 10, 10]),
   cropImageFromBase64_null_on_malformed_or_decode_failure.2 (some ⟨100, 200⟩)
     5 3 5 7 (Or.inl (le_refl 5))⟩

/-- C9: a box that is `null`/`undefined`/not an array (modelled `none`)
or whose length is not 4 yields `null`, independently of the decode
outcome (the guard runs before `new Image()` is created, so the result
is the same for every `decoded`). -/
theorem cropImageFromBase64_invalid_shape_null
    (decoded : Option DecodedImage) (b : List ℚ) (hb : b.length ≠ 4) :
    cropImageFromBase64 decoded (some b) = CropResult.nullResult ∧
    cropImageFromBase64 decoded none = CropResult.nullResult := by
  refine ⟨?_, rfl⟩
  match b with
  | [] => rfl
  | [x0] => rfl
  | [x0, x1] => rfl
  | [x0, x1, x2] => rfl
  | [x0, x1, x2, x3] => exact absurd rfl hb
  | x0 :: x1 :: x2 :: x3 :: x4 :: t => rfl

/-- Witness for C9: a 3-element box on a decodable raster yields `null`. -/
theorem cropImageFromBase64_invalid_shape_witness :
    cropImageFromBase64 (some ⟨50, 60⟩) (some [1, 2, 3]) = CropResult.nullResult :=
  (cropImageFromBase64_invalid_shape_null (some ⟨50, 60⟩) [1, 2, 3] (by decide)).1

/-- C6: a confirmed selection whose normalized rectangle has width or
height below 10 performs no crop, surfaces the warning, and leaves the
stored corners (the whole selector state) unchanged. -/
theorem handleCropConfirm_rejects_small (s : SelectorState)
    (h : |s.endPos.1 - s.startPos.1| < 10 ∨ |s.endPos.2 - s.startPos.2| < 10) :
    handleCropConfirm s = (s, ConfirmOutcome.warned) := by
  simp only [handleCropConfirm]
  rw [if_pos h]

/-- Witness for C6: a drag from (0,0) to (5,50) has width 5 < 10 and is
rejected with the state unchanged. -/
theorem handleCropConfirm_rejects_small_witness :
    handleCropConfirm ⟨(0, 0), (5, 50), false⟩ =
      (⟨(0, 0), (5, 50), false⟩, ConfirmOutcome.warned) :=
  handleCropConfirm_rejects_small ⟨(0, 0), (5, 50), false⟩ (by norm_num)

/-- C7: `getMousePos` maps a pointer event at the displayed raster's
top-left corner (`clientX = rect.left`, `clientY = rect.top`) to native
pixel (0,0), for every canvas geometry, hence for every per-axis
display scale factor. -/
theorem getMousePos_topLeft_origin (c : CanvasGeom) :
    getMousePos c c.rectLeft c.rectTop = (0, 0) := by
  simp [getMousePos]

/-- Clipping helper: for `0 ≤ a ≤ b ≤ w` and nonnegative padding, the
padded-and-clipped extent `min (w - max 0 (a - pad)) (b - a + pad * 2)`
is at least the unpadded extent `b - a`. -/
theorem clipped_padded_extent_ge (w a b pad : ℚ) (h0 : 0 ≤ a) (hab : a ≤ b)
    (hbw : b ≤ w) (hpad : 0 ≤ pad) :
    b - a ≤ min (w - max 0 (a - pad)) (b - a + pad * 2) := by
  refine le_min ?_ (by linarith)
  have hmax : max 0 (a - pad) ≤ a := max_le h0 (by linarith)
  linarith

/-- C4 counterexample: on a 50×50 raster with the valid box
`[100, 116, 900, 1000]`, the padded-and-clipped width is 44.7, which
the DOM truncates to a 44-pixel-wide canvas — strictly below the
unpadded box's pixel width `(1000-116)/1000 * 50 = 44.2`.  The claim's
"resulting dimensions ≥ unpadded pixel dimensions" therefore fails, by
a sub-pixel amount, on the program as written. -/
theorem cropImageFromBase64_truncation_counterexample :
    cropImageFromBase64 (some ⟨50, 50⟩) (some [100, 116, 900, 1000]) =
      CropResult.image 44 41 ∧
    ¬ ((1000 - 116 : ℚ) / 1000 * 50 ≤ (44 : ℚ)) := by
  constructor
  · simp only [cropImageFromBase64]
    rw [if_neg (by norm_num : ¬((100 : ℚ) ≥ 900 ∨ (116 : ℚ) ≥ 1000))]
    congr 1
    · rw [Int.floor_eq_iff]
      constructor <;> norm_num [min_def, max_def]
    · rw [Int.floor_eq_iff]
      constructor <;> norm_num [min_def, max_def]
  · norm_num

/-- C4 (amended): for a valid box (`ymin < ymax`, `xmin < xmax`, all
coordinates on the 0-1000 scale) and a decoded raster of size `w × h`,
the crop resolves an image whose dimensions are the converted
(`pixel = normalized/1000 * dimension`), 1%-padded, bounds-clipped
extents truncated to whole pixels, and each dimension is strictly
greater than the unpadded box's pixel extent minus one pixel (the
truncation of `canvas.width`/`canvas.height` can lose up to one
sub-pixel, as the counterexample shows; padding itself only grows the
box). -/
theorem cropImageFromBase64_padding_grows_box
    (w h ymin xmin ymax xmax : ℚ)
    (hw : 0 ≤ w) (hh : 0 ≤ h)
    (hy : ymin < ymax) (hx : xmin < xmax)
    (hy0 : 0 ≤ ymin) (hx0 : 0 ≤ xmin) (hy1 : ymax ≤ 1000) (hx1 : xmax ≤ 1000) :
    cropImageFromBase64 (some ⟨w, h⟩) (some [ymin, xmin, ymax, xmax]) =
      CropResult.image
        ⌊min (w - max 0 (xmin / 1000 * w - w * (1 / 100)))
          (xmax / 1000 * w - xmin / 1000 * w + w * (1 / 100) * 2)⌋
        ⌊min (h - max 0 (ymin / 1000 * h - h * (1 / 100)))
          (ymax / 1000 * h - ymin / 1000 * h + h * (1 / 100) * 2)⌋ ∧
    (xmax - xmin) / 1000 * w - 1 <
      (⌊min (w - max 0 (xmin / 1000 * w - w * (1 / 100)))
        (xmax / 1000 * w - xmin / 1000 * w + w * (1 / 100) * 2)⌋ : ℚ) ∧
    (ymax - ymin) / 1000 * h - 1 <
      (⌊min (h - max 0 (ymin / 1000 * h - h * (1 / 100)))
        (ymax / 1000 * h - ymin / 1000 * h + h * (1 / 100) * 2)⌋ : ℚ) := by
  have hcond : ¬(ymin ≥ ymax ∨ xmin ≥ xmax) := by push_neg; exact ⟨hy, hx⟩
  refine ⟨?_, ?_, ?_⟩
  · simp only [cropImageFromBase64]
    rw [if_neg hcond]
  · have hx2w : xmax / 1000 * w ≤ w := by
      have d2 : 0 ≤ (1000 - xmax) / 1000 * w := mul_nonneg (by linarith) hw
      linarith
    have hx12 : xmin / 1000 * w ≤ xmax / 1000 * w := by
      have d : 0 ≤ (xmax - xmin) / 1000 * w := mul_nonneg (by linarith) hw
      linarith
    have hx1n : 0 ≤ xmin / 1000 * w := mul_nonneg (by linarith) hw
    have hrw : (xmax - xmin) / 1000 * w = xmax / 1000 * w - xmin / 1000 * w := by
      ring
    have hge := clipped_padded_extent_ge w (xmin / 1000 * w) (xmax / 1000 * w)
      (w * (1 / 100)) hx1n hx12 hx2w (by linarith)
    have hfl := Int.sub_one_lt_floor
      (min (w - max 0 (xmin / 1000 * w - w * (1 / 100)))
        (xmax / 1000 * w - xmin / 1000 * w + w * (1 / 100) * 2))
    linarith
  · have hy2h : ymax / 1000 * h ≤ h := by
      have d2 : 0 ≤ (1000 - ymax) / 1000 * h := mul_nonneg (by linarith) hh
      linarith
    have hy12 : ymin / 1000 * h ≤ ymax / 1000 * h := by
      have d : 0 ≤ (ymax - ymin) / 1000 * h := mul_nonneg (by linarith) hh
      linarith
    have hy1n : 0 ≤ ymin / 1000 * h := mul_nonneg (by linarith) hh
    have hrw : (ymax - ymin) / 1000 * h = ymax / 1000 * h - ymin / 1000 * h := by
      ring
    have hge := clipped_padded_extent_ge h (ymin / 1000 * h) (ymax / 1000 * h)
      (h * (1 / 100)) hy1n hy12 hy2h (by linarith)
    have hfl := Int.sub_one_lt_floor
      (min (h - max 0 (ymin / 1000 * h - h * (1 / 100)))
        (ymax / 1000 * h - ymin / 1000 * h + h * (1 / 100) * 2))
    linarith

/-- Witness for C4 (amended): box `[0,0,500,500]` on a 1000×800 raster
crops to a 520 × 416 pixel image, above the unpadded-minus-one bounds
`500 - 1` and `400 - 1`. -/
theorem cropImageFromBase64_padding_grows_box_witness :
    cropImageFromBase64 (some ⟨1000, 800⟩) (some [0, 0, 500, 500]) =
      CropResult.image 520 416 := by
  have hmain := cropImageFromBase64_padding_grows_box 1000 800 0 0 500 500
    (by norm_num) (by norm_num) (by norm_num) (by norm_num) (by norm_num)
    (by norm_num) (by norm_num) (by norm_num)
  rw [hmain.1]
  congr 1
  · rw [Int.floor_eq_iff]
    constructor <;> norm_num [min_def, max_def]
  · rw [Int.floor_eq_iff]
    constructor <;> norm_num [min_def, max_def]

/-- Closed form of the window sequence from loop counter `i` (`i < N`):
a lone final window `[N]` when only one page remains, otherwise the
two-page windows `[p, p+1]` for `p = i+1 .. N-1`. -/
theorem windowsAux_closed (k : Nat) : ∀ N i, N - i = k + 1 → i < N →
    windowsAux N i =
      if N = i + 1 then [[N]]
      else (List.range' (i + 1) (N - 1 - i)).map (fun p => [p, p + 1]) := by
  induction k with
  | zero =>
    intro N i hk hi
    have hN : N = i + 1 := by omega
    subst hN
    rw [windowsAux, dif_pos hi, if_pos (by omega : i + 1 ≤ i + 2), if_pos rfl]
    have hw : windowAt (i + 1) i = [i + 1] := by
      have h1 : i + 1 - i = 1 := by omega
      rw [windowAt, h1]
      rfl
    rw [hw]
  | succ k ih =>
    intro N i hk hi
    have hge : i + 2 ≤ N := by omega
    rw [windowsAux, dif_pos hi]
    have hw : windowAt N i = [i + 1, i + 2] := by
      have h2 : min 2 (N - i) = 2 := by omega
      rw [windowAt, h2]
      rfl
    rw [hw]
    by_cases hN2 : N ≤ i + 2
    · have hN : N = i + 2 := by omega
      subst hN
      rw [if_pos (le_refl (i + 2)), if_neg (by omega : ¬ i + 2 = i + 1)]
      have h1 : i + 2 - 1 - i = 1 := by omega
      rw [h1, List.range'_one]
      rfl
    · rw [if_neg hN2, ih N (i + 1) (by omega) (by omega),
        if_neg (by omega : ¬ N = i + 1 + 1), if_neg (by omega : ¬ N = i + 1)]
      have h3 : N - 1 - i = (N - 1 - (i + 1)) + 1 := by omega
      rw [h3, List.range'_succ, List.map_cons]

/-- The loop of `parseQuestionsWithGemini` equals a fold of the loop
body over the windows it submits, from any counter value. -/
theorem parseLoop_eq_fold (oracle : List Nat → Except String (List Question))
    (k : Nat) : ∀ N i acc, N - i ≤ k →
      parseLoop oracle N i acc =
        ((windowsAux N i).map oracle).foldl windowStep acc := by
  induction k with
  | zero =>
    intro N i acc hk
    have hni : ¬ i < N := by omega
    rw [parseLoop, dif_neg hni, windowsAux, dif_neg hni]
    rfl
  | succ k ih =>
    intro N i acc hk
    by_cases hi : i < N
    · rw [parseLoop, dif_pos hi, windowsAux, dif_pos hi]
      by_cases h2 : N ≤ i + 2
      · rw [if_pos h2, if_pos h2]
        rfl
      · rw [if_neg h2, if_neg h2,
          ih N (i + 1) (windowStep acc (oracle (windowAt N i))) (by omega)]
        rfl
    · rw [parseLoop, dif_neg hi, windowsAux, dif_neg hi]
      rfl

/-- A `Bool` predicate holding at exactly one element of a duplicate-free
list is counted exactly once. -/
theorem countP_eq_one_unique {α : Type} (pred : α → Bool) (a : α) :
    ∀ l : List α, l.Nodup → a ∈ l → pred a = true →
      (∀ b ∈ l, pred b = true → b = a) → l.countP pred = 1 := by
  intro l
  induction l with
  | nil =>
    intro _ ha
    cases ha
  | cons x xs ih =>
    intro hnd hmem hpa huniq
    rw [List.countP_cons]
    rcases List.mem_cons.mp hmem with rfl | hmem'
    · rw [if_pos hpa]
      have h0 : xs.countP pred = 0 := by
        rw [List.countP_eq_zero]
        intro b hb hpb
        have hba := huniq b (List.mem_cons_of_mem _ hb) hpb
        subst hba
        exact (List.nodup_cons.mp hnd).1 hb
      omega
    · have hpx : ¬ pred x = true := by
        intro hpx
        have hxa := huniq x (List.mem_cons_self x xs) hpx
        subst hxa
        exact (List.nodup_cons.mp hnd).1 hmem'
      rw [if_neg hpx]
      have hrec := ih (List.nodup_cons.mp hnd).2 hmem' hpa
        (fun b hb hpb => huniq b (List.mem_cons_of_mem _ hb) hpb)
      omega

/-- C1: for an `N`-page array input, `parseQuestionsWithGemini` submits
to the oracle exactly the windows `[1,2],[2,3],...,[N-1,N]` in that
order (`[[1]]` alone when `N = 1`); every page `1..N` lies in some
window, and every adjacent page pair lies together in exactly one
window. -/
theorem geminiWindows_spec (N : Nat) (hN : 1 ≤ N) :
    (∀ oracle : List Nat → Except String (List Question),
      parseQuestionsWithGemini oracle N =
        collectWindows ((geminiWindows N).map oracle)) ∧
    geminiWindows N =
      (if N = 1 then [[1]]
       else (List.range' 1 (N - 1)).map (fun p => [p, p + 1])) ∧
    (∀ p, 1 ≤ p → p ≤ N → ∃ w, w ∈ geminiWindows N ∧ p ∈ w) ∧
    (∀ p, 1 ≤ p → p + 1 ≤ N →
      (geminiWindows N).countP
        (fun w => decide (p ∈ w) && decide (p + 1 ∈ w)) = 1) := by
  have hclosed : geminiWindows N =
      (if N = 1 then [[1]]
       else (List.range' 1 (N - 1)).map (fun p => [p, p + 1])) := by
    have hc := windowsAux_closed (N - 1) N 0 (by omega) (by omega)
    rw [geminiWindows, hc]
    by_cases h1 : N = 1
    · subst h1
      norm_num
    · rw [if_neg (by omega : ¬ N = 0 + 1), if_neg h1]
      norm_num
  refine ⟨?_, hclosed, ?_, ?_⟩
  · intro oracle
    rw [parseQuestionsWithGemini, collectWindows, geminiWindows]
    exact parseLoop_eq_fold oracle N N 0 [] (by omega)
  · intro p hp1 hpN
    rw [hclosed]
    by_cases h1 : N = 1
    · subst h1
      have hp : p = 1 := by omega
      subst hp
      exact ⟨[1], by simp, by simp⟩
    · rw [if_neg h1]
      by_cases hpN1 : p < N
      · refine ⟨[p, p + 1], List.mem_map_of_mem _ ?_, by simp⟩
        rw [List.mem_range'_1]
        omega
      · refine ⟨[N - 1, N - 1 + 1], List.mem_map_of_mem _ ?_, ?_⟩
        · rw [List.mem_range'_1]
          omega
        · have hp : N - 1 + 1 = p := by omega
          rw [hp]
          simp
  · intro p hp1 hpN
    rw [hclosed, if_neg (by omega : ¬ N = 1), List.countP_map]
    refine countP_eq_one_unique _ p _ (List.nodup_range' 1 (N - 1)) ?_ ?_ ?_
    · rw [List.mem_range'_1]
      omega
    · simp [Function.comp]
    · intro b hb hpb
      simp only [Function.comp, List.mem_cons, List.not_mem_nil, or_false,
        Bool.and_eq_true, decide_eq_true_eq] at hpb
      omega

/-- Witness for C1: a 4-page document yields exactly the windows
`[1,2],[2,3],[3,4]`. -/
theorem geminiWindows_spec_witness :
    geminiWindows 4 = [[1, 2], [2, 3], [3, 4]] := by
  rw [(geminiWindows_spec 4 (by norm_num)).2.1]
  rfl

/-- The dedup fold only ever appends to the accumulator. -/
theorem foldl_dedupInsert_prefix (qs : List Question) :
    ∀ acc : List Question, ∃ t, qs.foldl dedupInsert acc = acc ++ t := by
  induction qs with
  | nil =>
    intro acc
    exact ⟨[], by simp⟩
  | cons q qs ih =>
    intro acc
    rw [List.foldl_cons]
    rcases ih (dedupInsert acc q) with ⟨t, ht⟩
    rw [ht, dedupInsert]
    by_cases h : acc.any (fun prev => fingerprint prev == fingerprint q) = true
    · exact ⟨t, by rw [if_pos h]⟩
    · exact ⟨[q] ++ t, by rw [if_neg h, List.append_assoc]⟩

/-- The dedup fold's output is a sublist of accumulator-then-input:
accepted questions keep their first-acceptance (document) order. -/
theorem foldl_dedupInsert_sublist (qs : List Question) :
    ∀ acc, (qs.foldl dedupInsert acc).Sublist (acc ++ qs) := by
  induction qs with
  | nil =>
    intro acc
    simp
  | cons q qs ih =>
    intro acc
    rw [List.foldl_cons]
    refine (ih (dedupInsert acc q)).trans ?_
    rw [dedupInsert]
    by_cases h : acc.any (fun prev => fingerprint prev == fingerprint q) = true
    · rw [if_pos h]
      exact List.Sublist.append_left (List.sublist_cons_self q qs) acc
    · rw [if_neg h, List.append_assoc, List.singleton_append]

/-- The dedup fold preserves pairwise-distinct fingerprints. -/
theorem foldl_dedupInsert_pairwise (qs : List Question) :
    ∀ acc, acc.Pairwise (fun a b => fingerprint a ≠ fingerprint b) →
      (qs.foldl dedupInsert acc).Pairwise
        (fun a b => fingerprint a ≠ fingerprint b) := by
  induction qs with
  | nil =>
    intro acc h
    exact h
  | cons q qs ih =>
    intro acc hacc
    rw [List.foldl_cons]
    apply ih
    rw [dedupInsert]
    by_cases h : acc.any (fun prev => fingerprint prev == fingerprint q) = true
    · rw [if_pos h]
      exact hacc
    · rw [if_neg h, List.pairwise_append]
      refine ⟨hacc, by simp, ?_⟩
      intro a ha b hb
      rw [List.mem_singleton] at hb
      subst hb
      intro heq
      apply h
      rw [List.any_eq_true]
      exact ⟨a, ha, beq_iff_eq.mpr heq⟩

/-- A candidate whose fingerprint matches no earlier candidate and no
accumulator entry is accepted by the dedup fold. -/
theorem foldl_dedupInsert_accepts_first (q : Question) (l₂ : List Question) :
    ∀ l₁ acc : List Question,
      (∀ p ∈ l₁, fingerprint p ≠ fingerprint q) →
      (∀ p ∈ acc, fingerprint p ≠ fingerprint q) →
      q ∈ (l₁ ++ q :: l₂).foldl dedupInsert acc := by
  intro l₁
  induction l₁ with
  | nil =>
    intro acc _ hacc
    rw [List.nil_append, List.foldl_cons]
    have hnot : ¬ acc.any (fun prev => fingerprint prev == fingerprint q) = true := by
      rw [List.any_eq_true]
      rintro ⟨p, hp, hbeq⟩
      exact hacc p hp (by rwa [beq_iff_eq] at hbeq)
    have hins : dedupInsert acc q = acc ++ [q] := by
      rw [dedupInsert, if_neg hnot]
    rw [hins]
    rcases foldl_dedupInsert_prefix l₂ (acc ++ [q]) with ⟨t, ht⟩
    rw [ht]
    simp
  | cons p l₁ ih =>
    intro acc hl₁ hacc
    rw [List.cons_append, List.foldl_cons]
    apply ih
    · exact fun r hr => hl₁ r (List.mem_cons_of_mem _ hr)
    · intro r hr
      rw [dedupInsert] at hr
      by_cases hany : acc.any (fun prev => fingerprint prev == fingerprint p) = true
      · rw [if_pos hany] at hr
        exact hacc r hr
      · rw [if_neg hany] at hr
        rcases List.mem_append.mp hr with h1 | h2
        · exact hacc r h1
        · rw [List.mem_singleton] at h2
          subst h2
          exact hl₁ r (List.mem_cons_self _ _)

/-- Folding the loop body over window results equals dedup-folding the
concatenated candidates of exactly the successful windows. -/
theorem foldl_windowStep_eq (results : List (Except String (List Question))) :
    ∀ acc, results.foldl windowStep acc =
      ((results.filterMap Except.toOption).flatten).foldl dedupInsert acc := by
  induction results with
  | nil =>
    intro acc
    rfl
  | cons r rs ih =>
    intro acc
    match r with
    | Except.error e =>
      rw [List.foldl_cons]
      rw [show windowStep acc (Except.error e) = acc from rfl, ih]
      rfl
    | Except.ok ws =>
      rw [List.foldl_cons]
      rw [show windowStep acc (Except.ok ws) = ws.foldl dedupInsert acc from rfl, ih]
      rw [show (Except.ok ws :: rs).filterMap Except.toOption
            = ws :: rs.filterMap Except.toOption from rfl]
      rw [List.flatten_cons, List.foldl_append]

/-- `collectWindows` processes exactly the candidates of the successful
windows, in document order. -/
theorem collectWindows_eq_dedupAll (results : List (Except String (List Question))) :
    collectWindows results = dedupAll ((results.filterMap Except.toOption).flatten) :=
  foldl_windowStep_eq results []

/-- Demo questions for the dedup witness: `qAlphaDup` shares `qAlpha`'s
50-character stem prefix; `qBeta` does not. -/
def qAlpha : Question :=
  { text := "alpha question stem" }

/-- A later-window duplicate of `qAlpha` (same stem, different payload). -/
def qAlphaDup : Question :=
  { text := "alpha question stem", source := "later window" }

/-- A question with a distinct stem. -/
def qBeta : Question :=
  { text := "beta question stem" }

/-- C2: running the reconciler over successful windows dedup-folds their
candidates in document order; the final list is a sublist of the
candidate stream (first-acceptance order preserved), no two retained
questions share a 50-character stem prefix, and any candidate whose
prefix differs from every earlier candidate's is accepted. -/
theorem dedup_first_encounter_wins (windows : List (List Question)) :
    collectWindows (windows.map Except.ok) = dedupAll windows.flatten ∧
    (dedupAll windows.flatten).Sublist windows.flatten ∧
    (dedupAll windows.flatten).Pairwise
      (fun a b => fingerprint a ≠ fingerprint b) ∧
    (∀ l₁ q l₂, windows.flatten = l₁ ++ q :: l₂ →
      (∀ p ∈ l₁, fingerprint p ≠ fingerprint q) →
      q ∈ dedupAll windows.flatten) := by
  refine ⟨?_, ?_, ?_, ?_⟩
  · rw [collectWindows_eq_dedupAll]
    congr 1
    congr 1
    induction windows with
    | nil => rfl
    | cons w ws ih =>
      rw [show List.filterMap Except.toOption (List.map Except.ok (w :: ws))
            = w :: List.filterMap Except.toOption (List.map Except.ok ws) from rfl,
        ih]
  · simpa using foldl_dedupInsert_sublist windows.flatten []
  · exact foldl_dedupInsert_pairwise windows.flatten [] List.Pairwise.nil
  · intro l₁ q l₂ hsplit hfp
    rw [dedupAll, hsplit]
    exact foldl_dedupInsert_accepts_first q l₂ l₁ [] hfp (by simp)

/-- Witness for C2: with window 1 yielding `qAlpha` and window 2
yielding `qAlphaDup` then `qBeta`, the first-encountered `qAlpha` is in
the final list. -/
theorem dedup_first_encounter_wins_witness :
    qAlpha ∈ dedupAll [[qAlpha], [qAlphaDup, qBeta]].flatten :=
  (dedup_first_encounter_wins [[qAlpha], [qAlphaDup, qBeta]]).2.2.2
    [] qAlpha [qAlphaDup, qBeta] rfl (by simp)

/-- C5: a window whose oracle call fails is skipped without aborting the
run — inserting a failing window anywhere changes nothing, and the run
still collects the candidates of every successful window (the embedding
is total: no exception escapes the loop). -/
theorem window_failure_skipped (pre post : List (Except String (List Question)))
    (msg : String) (results : List (Except String (List Question))) :
    collectWindows (pre ++ Except.error msg :: post) =
      collectWindows (pre ++ post) ∧
    collectWindows results =
      dedupAll ((results.filterMap Except.toOption).flatten) := by
  refine ⟨?_, collectWindows_eq_dedupAll results⟩
  rw [collectWindows, collectWindows, List.foldl_append, List.foldl_append,
    List.foldl_cons]
  rfl

/-- Closed form of the upload run: from counter value `c`, a schedule of
`n` completion events appends exactly the calls
`(c+1, total), ..., (c+n, total)`. -/
theorem runUploadSchedule_closed {α : Type} (total : Nat) :
    ∀ (schedule : List α) (c : Nat) (calls : List (Nat × Nat)),
      runUploadSchedule total ⟨c, calls⟩ schedule =
        ⟨c + schedule.length,
          calls ++ (List.range' (c + 1) schedule.length).map
            (fun cur => (cur, total))⟩ := by
  intro schedule
  induction schedule with
  | nil =>
    intro c calls
    simp [runUploadSchedule]
  | cons x rest ih =>
    intro c calls
    rw [show runUploadSchedule total ⟨c, calls⟩ (x :: rest)
          = runUploadSchedule total ⟨c + 1, calls ++ [(c + 1, total)]⟩ rest from rfl]
    rw [ih (c + 1) (calls ++ [(c + 1, total)])]
    rw [List.length_cons, List.range'_succ, List.map_cons, List.append_assoc,
      List.singleton_append]
    congr 1
    omega

/-- C8: for a question list with `T = totalImages` data-URL images and
any completion schedule with one event per image, the progress callback
is invoked exactly `T` times, with `current` running 1..T in strictly
increasing order and `total = T` fixed, so `current` is always bounded
by the up-front image count. -/
theorem upload_progress_trace {α : Type} (qs : List Question) (schedule : List α)
    (hlen : schedule.length = totalImages qs) :
    (runUploadSchedule (totalImages qs) ⟨0, []⟩ schedule).calls =
      (List.range' 1 (totalImages qs)).map (fun cur => (cur, totalImages qs)) ∧
    (runUploadSchedule (totalImages qs) ⟨0, []⟩ schedule).calls.length =
      totalImages qs ∧
    (runUploadSchedule (totalImages qs) ⟨0, []⟩ schedule).calls.Pairwise
      (fun a b => a.1 < b.1) ∧
    (∀ call ∈ (runUploadSchedule (totalImages qs) ⟨0, []⟩ schedule).calls,
      call.2 = totalImages qs ∧ 1 ≤ call.1 ∧ call.1 ≤ totalImages qs) := by
  have hrun := runUploadSchedule_closed (totalImages qs) schedule 0 []
  rw [hlen] at hrun
  have hcalls : (runUploadSchedule (totalImages qs) ⟨0, []⟩ schedule).calls =
      (List.range' 1 (totalImages qs)).map (fun cur => (cur, totalImages qs)) := by
    rw [hrun]
    simp
  refine ⟨hcalls, ?_, ?_, ?_⟩
  · rw [hcalls]
    simp [List.length_range']
  · rw [hcalls, List.pairwise_map]
    exact List.pairwise_lt_range' 1 (totalImages qs)
  · rw [hcalls]
    intro call hcall
    rcases List.mem_map.mp hcall with ⟨cur, hcur, rfl⟩
    rw [List.mem_range'_1] at hcur
    exact ⟨rfl, by omega, by omega⟩

/-- A question contributing two uploads: one main data-URL image and
one option data-URL image. -/
def qWithImages : Question :=
  { text := "has images"
    image := some "data:image/png;base64,AAA"
    options := [
      { text := "opt A", isCorrect := false,
        image := some "data:image/jpeg;base64,BBB" },
      { text := "opt B", isCorrect := true, image := none }] }

/-- Witness for C8: a run over `qWithImages` (2 images) with a 2-event
schedule produces exactly the calls `(1,2), (2,2)`. -/
theorem upload_progress_trace_witness :
    (runUploadSchedule (totalImages [qWithImages]) ⟨0, []⟩ ([0, 1] : List Nat)).calls =
      (List.range' 1 (totalImages [qWithImages])).map
        (fun cur => (cur, totalImages [qWithImages])) :=
  (upload_progress_trace [qWithImages] ([0, 1] : List Nat) (by decide)).1

/-- `getD` after `mapIdx` applies the indexed function to the original
element, for in-range indices. -/
theorem getD_mapIdx {α : Type} :
    ∀ (l : List α) (f : Nat → α → α) (j : Nat) (d : α),
      j < l.length → (l.mapIdx f).getD j d = f j (l.getD j d) := by
  intro l
  induction l with
  | nil =>
    intro f j d hj
    simp at hj
  | cons a t ih =>
    intro f j d hj
    rw [List.mapIdx_cons]
    match j with
    | 0 =>
      rw [List.getD_cons_zero, List.getD_cons_zero]
    | j + 1 =>
      rw [List.getD_cons_succ, List.getD_cons_succ]
      exact ih (fun i => f (i + 1)) j d
        (by simp only [List.length_cons] at hj; omega)

/-- A list whose elements are all un-`isCorrect` except possibly at one
index has at most one correct option. -/
theorem countP_isCorrect_le_one :
    ∀ (l : List QOption) (k : Nat),
      (∀ j, j < l.length → j ≠ k → (l.getD j dummyOption).isCorrect = false) →
      l.countP (fun o => o.isCorrect) ≤ 1 := by
  intro l
  induction l with
  | nil =>
    intro k h
    simp
  | cons a t ih =>
    intro k h
    rw [List.countP_cons]
    match k with
    | 0 =>
      have h0 : t.countP (fun o => o.isCorrect) = 0 := by
        rw [List.countP_eq_zero]
        intro b hb
        rcases List.getElem_of_mem hb with ⟨j, hj, rfl⟩
        have hx := h (j + 1) (by simp only [List.length_cons]; omega) (by omega)
        rw [List.getD_cons_succ, List.getD_eq_getElem t dummyOption hj] at hx
        simp [hx]
      cases hpa : a.isCorrect <;> simp [h0, hpa]
    | k + 1 =>
      have ha : a.isCorrect = false := by
        have hx := h 0 (by simp) (by omega)
        rwa [List.getD_cons_zero] at hx
      have ht : ∀ j, j < t.length → j ≠ k →
          (t.getD j dummyOption).isCorrect = false := by
        intro j hj hjk
        have hx := h (j + 1) (by simp only [List.length_cons]; omega) (by omega)
        rwa [List.getD_cons_succ] at hx
      simp only [ha]
      have := ih k ht
      simp
      omega

/-- C10: on an `'mcq'` question, setting option `optIndex`'s `isCorrect`
to `true` through the option-change handler clears `isCorrect` on every
other option, so at most one option is marked correct afterwards (and
`optIndex` itself, when in range, is the one marked correct); on a
non-`'mcq'` question (`'msq'`, `'numerical'`) every other option is
left unchanged. -/
theorem handleOptionChange_mcq_single_correct (q : Question) (optIndex : Nat) :
    (q.type = QuestionType.mcq →
      ((handleOptionChangeIsCorrect q optIndex true).options.countP
          (fun o => o.isCorrect) ≤ 1 ∧
       (∀ j, j ≠ optIndex →
         ((handleOptionChangeIsCorrect q optIndex true).options.getD j
             dummyOption).isCorrect = false) ∧
       (optIndex < q.options.length →
         ((handleOptionChangeIsCorrect q optIndex true).options.getD optIndex
             dummyOption).isCorrect = true))) ∧
    (q.type ≠ QuestionType.mcq →
      ∀ (value : Bool) (j : Nat), j ≠ optIndex →
        (handleOptionChangeIsCorrect q optIndex value).options.getD j dummyOption
          = q.options.getD j dummyOption) := by
  constructor
  · intro hmcq
    have hopts : (handleOptionChangeIsCorrect q optIndex true).options =
        (q.options.mapIdx
          (fun j o => if j = optIndex then { o with isCorrect := true } else o)).mapIdx
          (fun i o => if i ≠ optIndex then { o with isCorrect := false } else o) := by
      simp only [handleOptionChangeIsCorrect]
      rw [if_pos ⟨trivial, hmcq⟩]
    have hlenM : (q.options.mapIdx
        (fun j o => if j = optIndex then { o with isCorrect := true } else o)).length
        = q.options.length := List.length_mapIdx
    have hne : ∀ j, j ≠ optIndex →
        ((handleOptionChangeIsCorrect q optIndex true).options.getD j
          dummyOption).isCorrect = false := by
      intro j hj
      rw [hopts]
      by_cases hrange : j < q.options.length
      · rw [getD_mapIdx _ _ j dummyOption (by rw [hlenM]; exact hrange),
          if_pos hj]
      · rw [List.getD_eq_default _ dummyOption
          (by rw [List.length_mapIdx, hlenM]; omega)]
        rfl
    refine ⟨?_, hne, ?_⟩
    · apply countP_isCorrect_le_one _ optIndex
      intro j hjlen hjne
      exact hne j hjne
    · intro hrange
      rw [hopts,
        getD_mapIdx _ _ optIndex dummyOption (by rw [hlenM]; exact hrange),
        if_neg (by simp : ¬ optIndex ≠ optIndex),
        getD_mapIdx _ _ optIndex dummyOption hrange,
        if_pos rfl]
  · intro hnot value j hj
    have hopts2 : (handleOptionChangeIsCorrect q optIndex value).options =
        q.options.mapIdx
          (fun k o => if k = optIndex then { o with isCorrect := value } else o) := by
      simp only [handleOptionChangeIsCorrect]
      rw [if_neg (fun hc => hnot hc.2)]
    rw [hopts2]
    by_cases hrange : j < q.options.length
    · rw [getD_mapIdx _ _ j dummyOption hrange, if_neg hj]
    · rw [List.getD_eq_default _ dummyOption (by rw [List.length_mapIdx]; omega),
        List.getD_eq_default _ dummyOption (by omega)]

/-- Demo MCQ question with three options, the second initially correct. -/
def qMcqDemo : Question :=
  { text := "pick one"
    type := QuestionType.mcq
    options := [
      { text := "A", isCorrect := false },
      { text := "B", isCorrect := true },
      { text := "C", isCorrect := false }] }

/-- Witness for C10: marking option 2 of the demo MCQ correct leaves at
most one correct option. -/
theorem handleOptionChange_mcq_single_correct_witness :
    (handleOptionChangeIsCorrect qMcqDemo 2 true).options.countP
      (fun o => o.isCorrect) ≤ 1 :=
  ((handleOptionChange_mcq_single_correct qMcqDemo 2).1 rfl).1

/-- Witness for C5: a failing middle window between two successful ones
changes nothing — both other windows' candidates are still collected. -/
theorem window_failure_skipped_witness :
    collectWindows [Except.ok [qAlpha], Except.error "boom", Except.ok [qBeta]] =
      collectWindows [Except.ok [qAlpha], Except.ok [qBeta]] :=
  (window_failure_skipped [Except.ok [qAlpha]] [Except.ok [qBeta]] "boom" []).1

/-- Witness for C7: on an 800×600 canvas displayed at 400×300 with its
top-left corner at client position (100, 50), a click at (100, 50) maps
to native pixel (0, 0). -/
theorem getMousePos_topLeft_origin_witness :
    getMousePos ⟨800, 600, 100, 50, 400, 300⟩ 100 50 = (0, 0) :=
  getMousePos_topLeft_origin ⟨800, 600, 100, 50, 400, 300⟩
